import Mathlib

/-!
Verification development for the light-client server pool
(`les/serverpool.go`) and the node state machine persistence layer.

The server pool code is shallowly embedded: float64 arithmetic is modelled by
exact rational arithmetic (`ℚ`), durations and monotonic clock values by `ℤ`
(nanoseconds), and `uint64` by `ℕ`.  The external collaborators that the spec
declares out of scope (the response-time statistics library, the expiring
accumulator, the time-weight table) are abstracted as an environment record of
their operations; the embedded functions call exactly the operations the
source calls, in the same order.
-/

/-- Tunable constant `minTimeout = 500ms` (nanoseconds). -/
def minTimeoutC : ℤ := 500000000

/-- Tunable constant `timeoutRefresh = 5s` (nanoseconds). -/
def timeoutRefreshC : ℤ := 5000000000

/-- Tunable constant `timeoutChangeThreshold = 10ms` (nanoseconds). -/
def timeoutChangeThresholdC : ℤ := 10000000

/-- Tunable constant `dialCost = 10000`. -/
def dialCostC : ℕ := 10000

/-- Tunable constant `nodeWeightMul = 1000000`. -/
def nodeWeightMulC : ℕ := 1000000

/-- Tunable constant `nodeWeightThreshold = 100`. -/
def nodeWeightThresholdC : ℕ := 100

/-- Tunable constant `redialWaitStep = 2`. -/
def redialWaitStepC : ℚ := 2

/-- Tunable constant `minRedialWait = 10s` (nanoseconds). -/
def minRedialWaitC : ℤ := 10000000000

/-- Model of Go's float64-to-integer conversion (truncation toward zero),
used for `time.Duration(float64(...))`. -/
def goTrunc (q : ℚ) : ℤ := if 0 ≤ q then ⌊q⌋ else -⌊-q⌋

/-- Model of Go's `uint64(float64)` conversion on its defined (non-negative,
in-range) domain: truncation toward zero, i.e. the floor, clamped at 0. -/
def goFloatToUInt64 (q : ℚ) : ℕ := (⌊q⌋).toNat

/-- Model of Go's `uint64(int64)` conversion: two's-complement wraparound. -/
def goU64ofI64 (x : ℤ) : ℕ := (x % (2 : ℤ) ^ 64).toNat

/-- Model of Go's `int64(uint64)` conversion: two's-complement reinterpretation. -/
def goI64ofU64 (u : ℕ) : ℤ := if u < 2 ^ 63 then (u : ℤ) else (u : ℤ) - 2 ^ 64

/-- Abstract operations of the external collaborators, as used by
`serverpool.go`: the response-time statistics library (`σ` is
`lpc.ResponseTimeStats`, `ω` is `lpc.ResponseTimeWeights`) and the expiring
accumulator (`ev` is `utils.ExpiredValue`).  Their internals are out of scope
for the spec; the pool only calls these operations. -/
structure LesEnv (σ ω ev : Type) where
  rtAdd : σ → ℤ → ℚ → ℚ → σ
  rtTimeout : σ → ℚ → ℤ
  rtValue : σ → ω → ℚ → ℚ
  rtSub : σ → σ → σ
  timeoutWeights : ℤ → ω
  evAdd : ev → ℕ → ℚ → ev
  evValue : ev → ℚ → ℕ
  evZero : ev

/-- The `nodeHistory` record of `serverpool.go`: dial-cost accumulator,
`waitUntil` (absolute time), `lastTimeout` (duration), `totalValue` and
`waitFactor` (float64, modelled as `ℚ`). -/
structure NodeHistory (ev : Type) where
  dialCost : ev
  waitUntil : ℤ
  lastTimeout : ℤ
  totalValue : ℚ
  waitFactor : ℚ
deriving DecidableEq

/-- The zero value of `nodeHistory`, produced by the failed type assertion
`s.ns.GetField(node, s.nodeHistoryField).(nodeHistory)` when the field is
absent. -/
def zeroNodeHistory {ev : Type} (E : LesEnv σ ω ev) : NodeHistory ev :=
  ⟨E.evZero, 0, 0, 0, 0⟩

/-- Result of one `calculateNode` call: the returned selection weight and
redial wait, the updated `nodeHistory` record, and whether `SetField` was
performed (`storeField` in the source). -/
structure CalcResult (ev : Type) where
  weight : ℕ
  wait : ℤ
  hist : NodeHistory ev
  store : Bool
deriving DecidableEq

/-- The `remoteDisconnect` branch of `calculateNode` computing `currentValue`:
`diff := currentStats; diff.SubStats(&connStats); diff.Value(timeWeights,
expFactor)`; when the `connectedStats` field is missing an error is logged and
`currentValue` stays 0. -/
def sessionValue {σ ω ev : Type} (E : LesEnv σ ω ev) (currentStats : σ)
    (connStats : Option σ) (timeWeights : ω) (expFactor : ℚ) : ℚ :=
  match connStats with
  | some cs => E.rtValue (E.rtSub currentStats cs) timeWeights expFactor
  | none => 0

/-- The lower clamp of `calculateNode`:
`if totalDialCost < dialCost { totalDialCost = dialCost }`. -/
def clampDialCost (x : ℕ) : ℕ := if x < dialCostC then dialCostC else x

/-- The recomputation trigger of `calculateNode`: `remoteDisconnect ||
timeout < n.lastTimeout-timeoutChangeThreshold ||
timeout > n.lastTimeout+timeoutChangeThreshold`. -/
def recomputeTrigger (remoteDisconnect : Bool) (timeout lastTimeout : ℤ) : Bool :=
  remoteDisconnect || decide (timeout < lastTimeout - timeoutChangeThresholdC)
    || decide (timeout > lastTimeout + timeoutChangeThresholdC)

/-- The redial backoff update of `calculateNode`, on `a = n.totalValue *
dialCost`, `b = float64(totalDialCost) * currentValue` and the previous
`waitFactor`: clamp to 1, multiply by `redialWaitStep`, cap at `a / b` when
`a < b * waitFactor`, clamp to 1 again. -/
def updatedWaitFactor (a b waitFactor : ℚ) : ℚ :=
  let w1 := if waitFactor < 1 then 1 else waitFactor
  let w2 := w1 * redialWaitStepC
  let w3 := if a < b * w2 then a / b else w2
  if w3 < 1 then 1 else w3

/-- The returned weight of `calculateNode`:
`uint64(n.totalValue * nodeWeightMul / float64(totalDialCost))`. -/
def nodeWeightOf (totalValue : ℚ) (totalDialCost : ℕ) : ℕ :=
  goFloatToUInt64 (totalValue * (nodeWeightMulC : ℚ) / (totalDialCost : ℚ))

/-- Shallow embedding of `(*serverPool).calculateNode` from
`les/serverpool.go`.  Inputs that the source reads from the pool or the state
machine are passed explicitly: `hist0` is the node's `nodeHistory` field
(`none` when absent), `nvt` is `s.vt.GetNode(node.ID())` (`none` when nil),
`connStats` is the `connectedStats` field, `timeWeights`/`expFactor` the
pool's current weight table and stats expiration factor, `logOffset` the
current log-offset, `timeout` the value returned by `s.getTimeout()`, and
`now`/`clockOffset` the clock reading and the pool's clock offset. -/
def calculateNode {σ ω ev : Type} (E : LesEnv σ ω ev)
    (failedConnection remoteDisconnect : Bool)
    (hist0 : Option (NodeHistory ev)) (nvt : Option σ) (connStats : Option σ)
    (timeWeights : ω) (expFactor : ℚ) (logOffset : ℚ) (timeout : ℤ)
    (now clockOffset : ℤ) : CalcResult ev :=
  let n := hist0.getD (zeroNodeHistory E)
  match nvt with
  | none => ⟨0, 0, n, false⟩
  | some currentStats =>
    let currentValue : ℚ :=
      if remoteDisconnect then
        sessionValue E currentStats connStats timeWeights expFactor
      else 0
    let dc1 := if failedConnection || remoteDisconnect then
        E.evAdd n.dialCost dialCostC logOffset
      else n.dialCost
    let totalDialCost := clampDialCost (E.evValue dc1 logOffset)
    let recompute := recomputeTrigger remoteDisconnect timeout n.lastTimeout
    let totalValue := if recompute then E.rtValue currentStats timeWeights expFactor
      else n.totalValue
    let lastTimeout := if recompute then timeout else n.lastTimeout
    if failedConnection || remoteDisconnect then
      let wf := updatedWaitFactor (totalValue * (dialCostC : ℚ))
        ((totalDialCost : ℚ) * currentValue) n.waitFactor
      let wait := goTrunc ((minRedialWaitC : ℚ) * wf)
      { weight := nodeWeightOf totalValue totalDialCost,
        wait := wait,
        hist := ⟨dc1, now + clockOffset + wait, lastTimeout, totalValue, wf⟩,
        store := true }
    else
      { weight := nodeWeightOf totalValue totalDialCost,
        wait := 0,
        hist := ⟨dc1, n.waitUntil, lastTimeout, totalValue, n.waitFactor⟩,
        store := recompute }

/-- The timeout-cache part of the pool state: `s.timeout`, `s.timeWeights`,
`s.timeoutRefreshed`. -/
structure TimeoutState (ω : Type) where
  timeout : ℤ
  timeWeights : ω
  timeoutRefreshed : ℤ
deriving DecidableEq

/-- Shallow embedding of `(*serverPool).getTimeout` from `les/serverpool.go`.
`vtStats` is `s.vt.RtStats()`, `expFactor` is `s.vt.StatsExpFactor()`, `now`
is `s.clock.Now()`; returns the recommended timeout together with the updated
cache state. -/
def getTimeout {σ ω ev : Type} (E : LesEnv σ ω ev) (vtStats : σ) (expFactor : ℚ)
    (now : ℤ) (st : TimeoutState ω) : ℤ × TimeoutState ω :=
  if st.timeoutRefreshed ≠ 0 ∧ now - st.timeoutRefreshed < timeoutRefreshC then
    (st.timeout, st)
  else
    let rts := E.rtAdd vtStats (2 * 1000000000) 10 expFactor
    let t0 := minTimeoutC
    let t1 := if E.rtTimeout rts (1 / 10) > t0 then E.rtTimeout rts (1 / 10) else t0
    let t2 := if E.rtTimeout rts (1 / 2) * 2 > t1 then E.rtTimeout rts (1 / 2) * 2 else t1
    let tw := if st.timeout ≠ t2 then E.timeoutWeights t2 else st.timeWeights
    (t2, ⟨t2, tw, now⟩)

/-- The `nodeHistoryEnc` record of `serverpool.go`: what the persistent
`nodeHistory` field encoder writes (the RLP byte serialization of this record
is external glue and abstracted away). -/
structure NodeHistoryEnc (ev : Type) where
  dialCost : ev
  waitFactor : ℕ
  waitUntil : ℕ
deriving DecidableEq

/-- The `sfiNodeHistory` field encoder from `serverpool.go`:
`DialCost = n.dialCost`, `WaitFactor = uint64(n.waitFactor * 256)`,
`WaitUntil = uint64(n.waitUntil)`. -/
def encodeNodeHistory {ev : Type} (n : NodeHistory ev) : NodeHistoryEnc ev :=
  ⟨n.dialCost, goFloatToUInt64 (n.waitFactor * 256), goU64ofI64 n.waitUntil⟩

/-- The `sfiNodeHistory` field decoder from `serverpool.go`:
`dialCost = ne.DialCost`, `waitFactor = float64(ne.WaitFactor) / 256`,
`waitUntil = mclock.AbsTime(ne.WaitUntil)`; `lastTimeout` and `totalValue`
are left at their zero values. -/
def decodeNodeHistory {ev : Type} (ne : NodeHistoryEnc ev) : NodeHistory ev :=
  ⟨ne.dialCost, goI64ofU64 ne.waitUntil, 0, 0, (ne.waitFactor : ℚ) / 256⟩

/-- The per-node view that the server pool maintains through the node state
machine: the six flags registered by the pool, the timeout attached to the
most recent `redialWait` set, the two fields, and the dirty (marked for
persistence) bit. -/
structure SPNode (σ ev : Type) where
  hasValue : Bool
  selected : Bool
  dialed : Bool
  connected : Bool
  redialWait : Bool
  alwaysConnect : Bool
  redialTimeout : ℤ
  history : Option (NodeHistory ev)
  connStats : Option σ
  dirty : Bool

/-- Whether the node has at least one flag bit set. -/
def SPNode.anyFlag {σ ev : Type} (s : SPNode σ ev) : Bool :=
  s.hasValue || s.selected || s.dialed || s.connected || s.redialWait || s.alwaysConnect

/-- Modelled from the spec: `SetField` on the `nodeHistory` field of the node
state machine (whose implementation is not among the given sources).  A field
can only be set on a node that currently has at least one flag bit set;
otherwise the write is discarded. -/
def setHistoryField {σ ev : Type} (s : SPNode σ ev) (v : Option (NodeHistory ev)) :
    SPNode σ ev :=
  if s.anyFlag then { s with history := v } else s

/-- Modelled from the spec: `SetField` on the `connectedStats` field of the
node state machine; setting to nil clears the field, and the write is
discarded on a flagless node. -/
def setConnStatsField {σ ev : Type} (s : SPNode σ ev) (v : Option σ) : SPNode σ ev :=
  if s.anyFlag then { s with connStats := v } else s

/-- Shallow embedding of `(*serverPool).unregisterPeer` from
`les/serverpool.go`, acting on the disconnecting peer's node view: it runs
`calculateNode(node, false, true)` (whose `SetField` of the updated
`nodeHistory` is applied when `storeField` held), clears `connectedStats`,
performs `SetState(node, stRedialWait, stConnected, wait)`, and when the
weight reaches `nodeWeightThreshold` sets `hasValue` and marks the node for
persistence.  The `SetState`/`SetField`/`Persist` semantics of the node state
machine are modelled from the spec. -/
def unregisterPeer {σ ω ev : Type} (E : LesEnv σ ω ev) (timeWeights : ω)
    (expFactor logOffset : ℚ) (timeout now clockOffset : ℤ) (nvt : Option σ)
    (s : SPNode σ ev) : SPNode σ ev :=
  let r := calculateNode E false true s.history nvt s.connStats timeWeights expFactor
    logOffset timeout now clockOffset
  let s1 := if r.store then setHistoryField s (some r.hist) else s
  let s2 := setConnStatsField s1 none
  let s3 := { s2 with redialWait := true, connected := false, redialTimeout := r.wait }
  if nodeWeightThresholdC ≤ r.weight then
    { s3 with hasValue := true, dirty := true }
  else s3

/-- The four flags involved in the selection-exclusion invariant
(`disableSelection` in `serverpool.go`). -/
structure SelFlags where
  selected : Bool
  dialed : Bool
  connected : Bool
  redialWait : Bool
deriving DecidableEq

/-- Modelled from the spec: the transitions that touch the `selected`,
`dialed`, `connected` and `redialWait` flags.  The selector iterators (whose
implementation is not among the given sources) set `selected` only on a node
matching the exclusion mask `disableSelection` (all four flags clear), and
entering any of `dialed`, `connected` or `redialWait` clears `selected`. -/
inductive SelStep : SelFlags → SelFlags → Prop where
  | select (s : SelFlags)
      (h : s.selected = false ∧ s.dialed = false ∧ s.connected = false ∧ s.redialWait = false) :
      SelStep s { s with selected := true }
  | deselect (s : SelFlags) : SelStep s { s with selected := false }
  | setDialed (s : SelFlags) : SelStep s { s with dialed := true, selected := false }
  | clearDialed (s : SelFlags) : SelStep s { s with dialed := false }
  | setConnected (s : SelFlags) :
      SelStep s { s with connected := true, dialed := false, selected := false }
  | clearConnected (s : SelFlags) : SelStep s { s with connected := false }
  | setRedialWait (s : SelFlags) :
      SelStep s { s with redialWait := true, connected := false, selected := false }
  | clearRedialWait (s : SelFlags) : SelStep s { s with redialWait := false }

/-- The initial flag state: every flag clear. -/
def initSelFlags : SelFlags := ⟨false, false, false, false⟩

/-- A flag state is reachable when a finite sequence of `SelStep` transitions
leads to it from the initial (all-clear) state. -/
def SelReachable (s : SelFlags) : Prop :=
  Relation.ReflTransGen SelStep initSelFlags s

/-- Modelled from the spec: a flag definition of the node state machine
(stable name and a persistent bit). -/
structure PFlagDef where
  name : String
  persistent : Bool

/-- Modelled from the spec: a field definition of the node state machine
(stable name, persistent bit, and for persistent fields an encoder/decoder
pair).  `V` is the dynamic value type, `B` the encoded-blob type. -/
structure PFieldDef (V B : Type) where
  name : String
  persistent : Bool
  enc : V → Option B
  dec : B → Option V

/-- Modelled from the spec: a node state machine setup, i.e. an ordered
registration list of flags and fields; indices/masks are positions in these
lists. -/
structure PSetup (V B : Type) where
  flags : List PFlagDef
  fields : List (PFieldDef V B)

/-- Modelled from the spec: the in-memory per-node data of a node state
machine instance, indexed by registration position. -/
structure PNodeData (V : Type) where
  flagBits : List Bool
  fieldVals : List (Option V)

/-- Modelled from the spec: the persisted per-node record, keyed by name
(`{flagBits persisted, field encodings keyed by name}`). -/
structure PRecord (B : Type) where
  flagSet : String → Bool
  fieldEnc : String → Option B

/-- Modelled from the spec: `Stop()` persistence of one node.  Only
persistent flags that are set are saved, and only persistent fields are
encoded, each keyed by its registered name. -/
def saveNode {V B : Type} (su : PSetup V B) (d : PNodeData V) : PRecord B :=
  { flagSet := fun name =>
      match (su.flags.zip d.flagBits).find? (fun p => p.1.name == name) with
      | some p => p.1.persistent && p.2
      | none => false,
    fieldEnc := fun name =>
      match (su.fields.zip d.fieldVals).find? (fun p => p.1.name == name) with
      | some p => if p.1.persistent then p.2.bind p.1.enc else none
      | none => none }

/-- Modelled from the spec: `Start()` restoration of one node under a (possibly
reordered) setup.  Names are resolved to the current indices; non-persistent
flags and fields are not restored. -/
def loadNode {V B : Type} (su : PSetup V B) (r : PRecord B) : PNodeData V :=
  { flagBits := su.flags.map (fun f => f.persistent && r.flagSet f.name),
    fieldVals := su.fields.map (fun f =>
      if f.persistent then (r.fieldEnc f.name).bind f.dec else none) }

lemma one_le_updatedWaitFactor (a b wf : ℚ) : 1 ≤ updatedWaitFactor a b wf := by
  unfold updatedWaitFactor
  dsimp only
  split_ifs <;> linarith

lemma clampDialCost_eq_max (x : ℕ) : clampDialCost x = max x dialCostC := by
  unfold clampDialCost dialCostC
  split_ifs with h <;> omega

lemma nodeWeightOf_int (tv : ℚ) (x : ℕ) (h : 0 ≤ tv) :
    (nodeWeightOf tv (clampDialCost x) : ℤ) =
      ⌊tv * (nodeWeightMulC : ℚ) / ((max x dialCostC : ℕ) : ℚ)⌋ := by
  rw [clampDialCost_eq_max]
  unfold nodeWeightOf goFloatToUInt64
  have hpos : (0 : ℚ) ≤ ((max x dialCostC : ℕ) : ℚ) := by positivity
  have hq : 0 ≤ tv * (nodeWeightMulC : ℚ) / ((max x dialCostC : ℕ) : ℚ) := by
    apply div_nonneg _ hpos
    apply mul_nonneg h
    norm_num [nodeWeightMulC]
  exact Int.toNat_of_nonneg (Int.floor_nonneg.mpr hq)

/-- C1 (amended): for every node and every call with a value-tracker entry
present, provided the (possibly just recomputed) `nodeHistory.totalValue` is
non-negative, the weight returned by `calculateNode` equals
`floor(totalValue * 1000000 / max(totalDialCost, dialCost))`, where
`totalDialCost` is the decayed dial-cost accumulator value at the current
log-offset.  For negative `totalValue` the returned `uint64` weight cannot
equal the negative floor (see the counterexample). -/
theorem calculateNode_weight_formula {σ ω ev : Type} (E : LesEnv σ ω ev)
    (fc rd : Bool) (hist0 : Option (NodeHistory ev)) (s : σ) (cs : Option σ)
    (tw : ω) (ef lo : ℚ) (t now off : ℤ)
    (hpos : 0 ≤ (calculateNode E fc rd hist0 (some s) cs tw ef lo t now off).hist.totalValue) :
    ((calculateNode E fc rd hist0 (some s) cs tw ef lo t now off).weight : ℤ) =
      ⌊(calculateNode E fc rd hist0 (some s) cs tw ef lo t now off).hist.totalValue *
        (nodeWeightMulC : ℚ) /
        ((max (E.evValue ((calculateNode E fc rd hist0 (some s) cs tw ef lo t now off).hist.dialCost) lo) dialCostC : ℕ) : ℚ)⌋ := by
  unfold calculateNode at *
  dsimp only at *
  cases hb : (fc || rd) <;> simp only [hb] at hpos ⊢ <;>
    simp only [if_true, if_false, Bool.false_eq_true, Bool.true_eq_false] at hpos ⊢ <;>
    exact nodeWeightOf_int _ _ hpos


/-- C2: after any `calculateNode` call with `failedConnection` or
`remoteDisconnect` true, the `nodeHistory.waitFactor` stored back is at least
1, for every prior record (including waitFactor values below 1 or negative)
and every combination of totalValue, currentValue and totalDialCost. -/
theorem calculateNode_waitFactor_ge_one {σ ω ev : Type} (E : LesEnv σ ω ev)
    (fc rd : Bool) (hist0 : Option (NodeHistory ev)) (s : σ) (cs : Option σ)
    (tw : ω) (ef lo : ℚ) (t now off : ℤ) (hfr : fc = true ∨ rd = true) :
    1 ≤ (calculateNode E fc rd hist0 (some s) cs tw ef lo t now off).hist.waitFactor := by
  have hb : (fc || rd) = true := by
    rcases hfr with h | h <;> simp [h]
  unfold calculateNode
  dsimp only
  simp only [hb, if_true]
  exact one_le_updatedWaitFactor _ _ _

/-- C9: when the value tracker holds no node-specific response-time entry,
`calculateNode` returns `(0, 0)` regardless of `failedConnection` and
`remoteDisconnect`, performs no `SetField` (store is false), and the record
it carries is the unchanged input field. -/
theorem calculateNode_no_vt_entry {σ ω ev : Type} (E : LesEnv σ ω ev)
    (fc rd : Bool) (hist0 : Option (NodeHistory ev)) (cs : Option σ)
    (tw : ω) (ef lo : ℚ) (t now off : ℤ) :
    calculateNode E fc rd hist0 none cs tw ef lo t now off =
      ⟨0, 0, hist0.getD (zeroNodeHistory E), false⟩ := rfl

lemma recomputeTrigger_true_iff (rd : Bool) (t lt : ℤ) :
    recomputeTrigger rd t lt = true ↔
      (rd = true ∨ t < lt - timeoutChangeThresholdC ∨ lt + timeoutChangeThresholdC < t) := by
  unfold recomputeTrigger
  simp [Bool.or_eq_true, decide_eq_true_iff, or_assoc]

/-- C5: in `calculateNode`, `nodeHistory.totalValue` is recomputed from the
node's current response-time statistics and `lastTimeout` updated exactly
when `remoteDisconnect` is true or the current timeout differs from the
stored `lastTimeout` by strictly more than 10ms; the field is written back
exactly when one of those triggers holds or a redial-wait update dirtied the
record; and when nothing triggers, the stored field is left unchanged. -/
theorem calculateNode_recompute_conditions {σ ω ev : Type} (E : LesEnv σ ω ev)
    (fc rd : Bool) (hist0 : Option (NodeHistory ev)) (s : σ) (cs : Option σ)
    (tw : ω) (ef lo : ℚ) (t now off : ℤ) :
    ((rd = true ∨ t < (hist0.getD (zeroNodeHistory E)).lastTimeout - timeoutChangeThresholdC ∨
        (hist0.getD (zeroNodeHistory E)).lastTimeout + timeoutChangeThresholdC < t) →
      (calculateNode E fc rd hist0 (some s) cs tw ef lo t now off).hist.totalValue =
          E.rtValue s tw ef ∧
        (calculateNode E fc rd hist0 (some s) cs tw ef lo t now off).hist.lastTimeout = t) ∧
    (¬(rd = true ∨ t < (hist0.getD (zeroNodeHistory E)).lastTimeout - timeoutChangeThresholdC ∨
        (hist0.getD (zeroNodeHistory E)).lastTimeout + timeoutChangeThresholdC < t) →
      (calculateNode E fc rd hist0 (some s) cs tw ef lo t now off).hist.totalValue =
          (hist0.getD (zeroNodeHistory E)).totalValue ∧
        (calculateNode E fc rd hist0 (some s) cs tw ef lo t now off).hist.lastTimeout =
          (hist0.getD (zeroNodeHistory E)).lastTimeout) ∧
    ((calculateNode E fc rd hist0 (some s) cs tw ef lo t now off).store = true ↔
      ((rd = true ∨ t < (hist0.getD (zeroNodeHistory E)).lastTimeout - timeoutChangeThresholdC ∨
          (hist0.getD (zeroNodeHistory E)).lastTimeout + timeoutChangeThresholdC < t) ∨
        fc = true ∨ rd = true)) ∧
    ((calculateNode E fc rd hist0 (some s) cs tw ef lo t now off).store = false →
      (calculateNode E fc rd hist0 (some s) cs tw ef lo t now off).hist =
        hist0.getD (zeroNodeHistory E)) := by
  by_cases hP : (rd = true ∨ t < (hist0.getD (zeroNodeHistory E)).lastTimeout - timeoutChangeThresholdC ∨
      (hist0.getD (zeroNodeHistory E)).lastTimeout + timeoutChangeThresholdC < t)
  · have htr : recomputeTrigger rd t (hist0.getD (zeroNodeHistory E)).lastTimeout = true :=
      (recomputeTrigger_true_iff _ _ _).mpr hP
    unfold calculateNode
    dsimp only
    cases hb : (fc || rd) <;>
      simp only [htr, hb, if_true, if_false, Bool.false_eq_true, Bool.true_eq_false, ite_true,
        ite_false]
    · refine ⟨fun _ => ⟨trivial, trivial⟩, fun h => absurd hP h, ?_, ?_⟩
      · simp only [true_iff]
        exact Or.inl hP
      · intro h
        cases h
    · refine ⟨fun _ => ⟨trivial, trivial⟩, fun h => absurd hP h, ?_, ?_⟩
      · simp only [true_iff]
        exact Or.inl hP
      · intro h
        cases h
  · have htr : recomputeTrigger rd t (hist0.getD (zeroNodeHistory E)).lastTimeout = false := by
      rcases hE : recomputeTrigger rd t (hist0.getD (zeroNodeHistory E)).lastTimeout with _ | _
      · rfl
      · exact absurd ((recomputeTrigger_true_iff _ _ _).mp hE) hP
    unfold calculateNode
    dsimp only
    cases hb : (fc || rd) <;>
      simp only [htr, hb, if_true, if_false, Bool.false_eq_true, Bool.true_eq_false, ite_true,
        ite_false]
    · have hfc : fc = false ∧ rd = false := by
        constructor <;> [skip; skip] <;> cases fc <;> cases rd <;> simp_all
      refine ⟨fun h => absurd h hP, fun _ => ⟨trivial, trivial⟩, ?_, fun _ => trivial⟩
      simp only [false_iff]
      rintro (h | h | h)
      · exact hP h
      · exact absurd h (by simp [hfc.1])
      · exact absurd h (by simp [hfc.2])
    · refine ⟨fun h => absurd h hP, fun _ => ⟨trivial, trivial⟩, ?_, ?_⟩
      · simp only [true_iff]
        right
        cases fc
        · right
          cases rd
          · simp at hb
          · rfl
        · exact Or.inl rfl
      · intro h
        cases h

lemma max_one_eq_ite (wf : ℚ) : (if wf < 1 then (1 : ℚ) else wf) = max wf 1 := by
  rcases lt_or_le wf 1 with h | h
  · simp [h, max_eq_right h.le]
  · simp [not_lt.mpr h, max_eq_left h]

lemma updatedWaitFactor_of_b_zero (a wf : ℚ) (ha : 0 ≤ a) :
    updatedWaitFactor a 0 wf = max wf 1 * redialWaitStepC := by
  unfold updatedWaitFactor
  dsimp only
  rw [max_one_eq_ite wf, zero_mul, if_neg (not_lt.mpr ha), if_neg]
  rw [not_lt]
  have h1 : (1 : ℚ) ≤ max wf 1 := le_max_right wf 1
  unfold redialWaitStepC
  linarith

lemma backoff_of_current_zero (tv wf : ℚ) (tdc : ℕ) (htv : 0 ≤ tv) :
    updatedWaitFactor (tv * (dialCostC : ℚ)) ((tdc : ℚ) * 0) wf = max wf 1 * 2 := by
  rw [mul_zero]
  have h := updatedWaitFactor_of_b_zero (tv * (dialCostC : ℚ)) wf
    (mul_nonneg htv (by norm_num [dialCostC]))
  unfold redialWaitStepC at h
  exact h

lemma goTrunc_backoff (wf : ℚ) :
    goTrunc ((minRedialWaitC : ℚ) * (max wf 1 * 2)) =
        ⌊(minRedialWaitC : ℚ) * (max wf 1 * 2)⌋ ∧
      2 * minRedialWaitC ≤ goTrunc ((minRedialWaitC : ℚ) * (max wf 1 * 2)) := by
  have h1 : (1 : ℚ) ≤ max wf 1 := le_max_right wf 1
  have hmr : (0 : ℚ) ≤ (minRedialWaitC : ℚ) := by norm_num [minRedialWaitC]
  have hnn : 0 ≤ (minRedialWaitC : ℚ) * (max wf 1 * 2) := mul_nonneg hmr (by linarith)
  refine ⟨?_, ?_⟩
  · unfold goTrunc
    rw [if_pos hnn]
  · unfold goTrunc
    rw [if_pos hnn]
    apply Int.le_floor.mpr
    push_cast
    nlinarith [hmr, h1]

/-- C10 (amended): for every `calculateNode` call with `failedConnection=true`
and `remoteDisconnect=false` (and a value-tracker entry present),
`currentValue` is 0, so provided the (possibly recomputed) `totalValue` is
non-negative the proportional cap never applies: the stored `waitFactor`
becomes exactly `max(previous waitFactor, 1) * 2`, the returned wait is the
truncation of `minRedialWait` times that factor, and it is at least
`2 * minRedialWait = 20s`.  (With a negative `totalValue` the cap fires with
`b = 0` and the factor is clamped to 1 instead, see the counterexample.) -/
theorem calculateNode_failed_connection_backoff {σ ω ev : Type} (E : LesEnv σ ω ev)
    (hist0 : Option (NodeHistory ev)) (s : σ) (cs : Option σ)
    (tw : ω) (ef lo : ℚ) (t now off : ℤ)
    (hTv : 0 ≤ (calculateNode E true false hist0 (some s) cs tw ef lo t now off).hist.totalValue) :
    (calculateNode E true false hist0 (some s) cs tw ef lo t now off).hist.waitFactor =
        max (hist0.getD (zeroNodeHistory E)).waitFactor 1 * 2 ∧
      (calculateNode E true false hist0 (some s) cs tw ef lo t now off).wait =
        ⌊(minRedialWaitC : ℚ) * (max (hist0.getD (zeroNodeHistory E)).waitFactor 1 * 2)⌋ ∧
      2 * minRedialWaitC ≤ (calculateNode E true false hist0 (some s) cs tw ef lo t now off).wait := by
  unfold calculateNode at *
  dsimp only at *
  simp only [Bool.true_or, if_true, Bool.false_eq_true, ite_false, if_false] at hTv ⊢
  rw [backoff_of_current_zero _ _ _ hTv]
  exact ⟨rfl, (goTrunc_backoff _).1, (goTrunc_backoff _).2⟩

lemma ite_gt_eq_max (u v : ℤ) : (if v > u then v else u) = max u v := by
  rcases lt_or_le u v with h | h
  · simp [h, max_eq_right h.le]
  · simp [not_lt.mpr h, max_eq_left h]

/-- C4 (amended): `getTimeout` returns
`max(500ms, stats.Timeout(0.1), stats.Timeout(0.5) * 2)` computed over the
global response-time statistics with 10 synthetic 2-second samples added, and
it returns the cached timeout without recomputing exactly when the recorded
refresh clock value is nonzero and less than 5 seconds old; a refresh
recorded at clock value 0 is treated as absent and does not inhibit
recomputation (see the counterexample). -/
theorem getTimeout_spec {σ ω ev : Type} (E : LesEnv σ ω ev) (vtStats : σ) (ef : ℚ)
    (now : ℤ) (st : TimeoutState ω) :
    (st.timeoutRefreshed ≠ 0 → now - st.timeoutRefreshed < timeoutRefreshC →
      getTimeout E vtStats ef now st = (st.timeout, st)) ∧
    ((st.timeoutRefreshed = 0 ∨ timeoutRefreshC ≤ now - st.timeoutRefreshed) →
      (getTimeout E vtStats ef now st).1 =
          max (max minTimeoutC
            (E.rtTimeout (E.rtAdd vtStats (2 * 1000000000) 10 ef) (1 / 10)))
            (E.rtTimeout (E.rtAdd vtStats (2 * 1000000000) 10 ef) (1 / 2) * 2) ∧
        (getTimeout E vtStats ef now st).2.timeoutRefreshed = now) := by
  constructor
  · intro h1 h2
    unfold getTimeout
    rw [if_pos ⟨h1, h2⟩]
  · intro h
    have hneg : ¬(st.timeoutRefreshed ≠ 0 ∧ now - st.timeoutRefreshed < timeoutRefreshC) := by
      rcases h with h | h
      · intro hc
        exact hc.1 h
      · intro hc
        exact absurd hc.2 (not_lt.mpr h)
    unfold getTimeout
    rw [if_neg hneg]
    dsimp only
    rw [ite_gt_eq_max, ite_gt_eq_max]
    exact ⟨rfl, rfl⟩

def unitEnv : LesEnv Unit Unit Unit :=
  { rtAdd := fun s _ _ _ => s, rtTimeout := fun _ _ => 0,
    rtValue := fun _ _ _ => 5, rtSub := fun s _ => s,
    timeoutWeights := fun _ => (), evAdd := fun e _ _ => e,
    evValue := fun _ _ => 25000, evZero := () }

def intStatsEnv : LesEnv ℤ Unit Unit :=
  { rtAdd := fun s _ _ _ => s, rtTimeout := fun s _ => s,
    rtValue := fun _ _ _ => 0, rtSub := fun s _ => s,
    timeoutWeights := fun _ => (), evAdd := fun e _ _ => e,
    evValue := fun _ _ => 0, evZero := () }

def negValueHistory : NodeHistory Unit := ⟨(), 0, 0, -1, 0⟩

/-- C1 counterexample: at a reachable input whose stored `totalValue` is -1
(no recompute trigger, dial cost value 25000), the returned weight is the
`uint64` 0 while `floor(totalValue * 1000000 / max(totalDialCost, dialCost))`
is -40, so the claim as stated, without a non-negativity proviso, is false. -/
theorem calculateNode_weight_formula_cex :
    ((calculateNode unitEnv false false (some negValueHistory) (some ()) none () 1 0 0 0 0).weight : ℤ) ≠
      ⌊(calculateNode unitEnv false false (some negValueHistory) (some ()) none () 1 0 0 0 0).hist.totalValue *
        (nodeWeightMulC : ℚ) /
        ((max (unitEnv.evValue ((calculateNode unitEnv false false (some negValueHistory) (some ()) none () 1 0 0 0 0).hist.dialCost) 0) dialCostC : ℕ) : ℚ)⌋ := by
  norm_num [calculateNode, unitEnv, negValueHistory, zeroNodeHistory, recomputeTrigger,
    timeoutChangeThresholdC, clampDialCost, dialCostC, nodeWeightOf, goFloatToUInt64,
    nodeWeightMulC]

/-- C4 counterexample: a `getTimeout` computation performed at clock value 0
caches a timeout of 1.4s, yet a second call 1 second later (less than the 5s
refresh window) recomputes and returns a different value instead of the
cached timeout. -/
theorem getTimeout_zero_refresh_cex :
    (getTimeout intStatsEnv 700000000 1 0 ⟨0, (), 0⟩).2.timeout = 1400000000 ∧
      (1000000000 : ℤ) - (getTimeout intStatsEnv 700000000 1 0 ⟨0, (), 0⟩).2.timeoutRefreshed <
        timeoutRefreshC ∧
      (getTimeout intStatsEnv 0 1 1000000000
          (getTimeout intStatsEnv 700000000 1 0 ⟨0, (), 0⟩).2).1 ≠
        (getTimeout intStatsEnv 700000000 1 0 ⟨0, (), 0⟩).2.timeout := by
  norm_num [getTimeout, intStatsEnv, timeoutRefreshC, minTimeoutC]

/-- C10 counterexample: with a stored `totalValue` of -1, a
`failedConnection` call stores waitFactor 1, not
`max(previous waitFactor, 1) * 2 = 2`, and the returned wait is 10s, below
the claimed lower bound of `2 * minRedialWait = 20s`. -/
theorem calculateNode_failed_connection_cex :
    (calculateNode unitEnv true false (some negValueHistory) (some ()) none () 1 0 0 0 0).hist.waitFactor ≠
        max negValueHistory.waitFactor 1 * 2 ∧
      (calculateNode unitEnv true false (some negValueHistory) (some ()) none () 1 0 0 0 0).wait <
        2 * minRedialWaitC := by
  norm_num [calculateNode, unitEnv, negValueHistory, zeroNodeHistory, recomputeTrigger,
    timeoutChangeThresholdC, updatedWaitFactor, clampDialCost, dialCostC, redialWaitStepC,
    goTrunc, minRedialWaitC, nodeWeightOf, goFloatToUInt64, nodeWeightMulC]

/-- C3: for every connected peer, `unregisterPeer` computes `(weight, wait)`
via `calculateNode` with `failedConnection=false` and `remoteDisconnect=true`,
clears the `connectedStats` field, sets `redialWait` while clearing
`connected` with timeout `wait`, and exactly when `weight >= 100` sets
`hasValue` and marks the node for persistence. -/
theorem unregisterPeer_spec {σ ω ev : Type} (E : LesEnv σ ω ev) (tw : ω)
    (ef lo : ℚ) (t now off : ℤ) (nvt : Option σ) (s : SPNode σ ev)
    (hconn : s.connected = true) :
    (unregisterPeer E tw ef lo t now off nvt s).connStats = none ∧
      (unregisterPeer E tw ef lo t now off nvt s).redialWait = true ∧
      (unregisterPeer E tw ef lo t now off nvt s).connected = false ∧
      (unregisterPeer E tw ef lo t now off nvt s).redialTimeout =
        (calculateNode E false true s.history nvt s.connStats tw ef lo t now off).wait ∧
      (nodeWeightThresholdC ≤
          (calculateNode E false true s.history nvt s.connStats tw ef lo t now off).weight →
        (unregisterPeer E tw ef lo t now off nvt s).hasValue = true ∧
          (unregisterPeer E tw ef lo t now off nvt s).dirty = true) ∧
      ((calculateNode E false true s.history nvt s.connStats tw ef lo t now off).weight <
          nodeWeightThresholdC →
        (unregisterPeer E tw ef lo t now off nvt s).hasValue = s.hasValue ∧
          (unregisterPeer E tw ef lo t now off nvt s).dirty = s.dirty) := by
  unfold unregisterPeer setHistoryField setConnStatsField
  dsimp only
  by_cases hw : nodeWeightThresholdC ≤
      (calculateNode E false true s.history nvt s.connStats tw ef lo t now off).weight
  · have hnl : ¬((calculateNode E false true s.history nvt s.connStats tw ef lo t now off).weight <
        nodeWeightThresholdC) := not_lt.mpr hw
    cases hst : (calculateNode E false true s.history nvt s.connStats tw ef lo t now off).store <;>
      simp [hst, hw, hnl, SPNode.anyFlag, hconn]
  · cases hst : (calculateNode E false true s.history nvt s.connStats tw ef lo t now off).store <;>
      simp [hst, hw, SPNode.anyFlag, hconn]

/-- C6: for every reachable flag state, if `selected` is set then none of
`dialed`, `connected` or `redialWait` is set (setting any of the latter
clears `selected` by construction of the transition system). -/
theorem selected_excludes_active (s : SelFlags) (hr : SelReachable s)
    (hsel : s.selected = true) :
    s.dialed = false ∧ s.connected = false ∧ s.redialWait = false := by
  induction hr with
  | refl => cases hsel
  | tail _ st ih =>
    cases st with
    | select h => exact ⟨h.2.1, h.2.2.1, h.2.2.2⟩
    | deselect => cases hsel
    | setDialed => cases hsel
    | clearDialed =>
      have h := ih hsel
      exact ⟨rfl, h.2.1, h.2.2⟩
    | setConnected => cases hsel
    | clearConnected =>
      have h := ih hsel
      exact ⟨h.1, rfl, h.2.2⟩
    | setRedialWait => cases hsel
    | clearRedialWait =>
      have h := ih hsel
      exact ⟨h.1, h.2.1, rfl⟩

lemma goU64_roundtrip (x : ℤ) (h1 : -(2 : ℤ) ^ 63 ≤ x) (h2 : x < 2 ^ 63) :
    goI64ofU64 (goU64ofI64 x) = x := by
  unfold goI64ofU64 goU64ofI64
  split_ifs with h <;> omega

/-- C8: for every `nodeHistory` record with non-negative `waitFactor` (and
`waitUntil` in the int64 range of `mclock.AbsTime`), decoding the encoding
yields a record whose `dialCost` and `waitUntil` are exactly preserved, whose
`waitFactor` is `floor(waitFactor * 256) / 256`, and whose `lastTimeout` and
`totalValue` are the zero values (they are not persisted). -/
theorem nodeHistory_codec_roundtrip {ev : Type} (n : NodeHistory ev)
    (hwf : 0 ≤ n.waitFactor) (h1 : -(2 : ℤ) ^ 63 ≤ n.waitUntil)
    (h2 : n.waitUntil < 2 ^ 63) :
    decodeNodeHistory (encodeNodeHistory n) =
      ⟨n.dialCost, n.waitUntil, 0, 0, ((⌊n.waitFactor * 256⌋ : ℤ) : ℚ) / 256⟩ := by
  unfold decodeNodeHistory encodeNodeHistory
  dsimp only
  rw [goU64_roundtrip n.waitUntil h1 h2]
  unfold goFloatToUInt64
  have hnn : (0 : ℤ) ≤ ⌊n.waitFactor * 256⌋ :=
    Int.floor_nonneg.mpr (by positivity)
  have hcast : ((⌊n.waitFactor * 256⌋.toNat : ℕ) : ℚ) = ((⌊n.waitFactor * 256⌋ : ℤ) : ℚ) := by
    exact_mod_cast congrArg (fun z : ℤ => (z : ℚ)) (Int.toNat_of_nonneg hnn)
  rw [hcast]

lemma find_zip_of_nodup {α β : Type} (nm : α → String) :
    ∀ (xs : List α) (ys : List β) (i : ℕ) (hi : i < xs.length) (hy : i < ys.length),
      (xs.map nm).Nodup →
      (xs.zip ys).find? (fun p => nm p.1 == nm xs[i]) = some (xs[i], ys[i])
  | [], _, i, hi, _, _ => absurd hi (by simp)
  | _ :: _, [], i, _, hy, _ => absurd hy (by simp)
  | x :: xs', y :: ys', 0, _, _, _ => by
    simp [List.find?]
  | x :: xs', y :: ys', (i + 1), hi, hy, hnd => by
    have hi' : i < xs'.length := by simpa using hi
    have hy' : i < ys'.length := by simpa using hy
    rw [List.map_cons, List.nodup_cons] at hnd
    have hmem : nm xs'[i] ∈ xs'.map nm := List.mem_map_of_mem nm (xs'.getElem_mem hi')
    have hne : (nm x == nm xs'[i]) = false := by
      rw [beq_eq_false_iff_ne]
      intro hEq
      rw [hEq] at hnd
      exact hnd.1 hmem
    have hrec := find_zip_of_nodup nm xs' ys' i hi' hy' hnd.2
    simp only [List.zip_cons_cons, List.getElem_cons_succ]
    rw [List.find?_cons_of_neg _ (by simp [hne]), hrec]

/-- C7: persistent flags and persistent field values round-trip exactly
through `Stop()`/`Start()`, keyed by name: for any two setups registering a
flag or field of the same name as persistent (in possibly different
positions), the value loaded through the new index of that name equals the
stored value, provided the field's codec is faithful on it.  Taking the two
setups equal gives the same-setup round-trip; taking them reordered gives the
reordering claim. -/
theorem nodestate_persistence_roundtrip {V B : Type} (su1 su2 : PSetup V B)
    (d : PNodeData V) :
    (∀ (i j : ℕ) (hi : i < su1.flags.length) (hj : j < su2.flags.length)
        (hib : i < d.flagBits.length),
      (su1.flags.map PFlagDef.name).Nodup →
      (su2.flags[j]).name = (su1.flags[i]).name →
      (su1.flags[i]).persistent = true →
      (su2.flags[j]).persistent = true →
      (loadNode su2 (saveNode su1 d)).flagBits[j]? = some (d.flagBits[i])) ∧
    (∀ (i j : ℕ) (hi : i < su1.fields.length) (hj : j < su2.fields.length)
        (hib : i < d.fieldVals.length) (v : V) (b : B),
      (su1.fields.map PFieldDef.name).Nodup →
      (su2.fields[j]).name = (su1.fields[i]).name →
      (su1.fields[i]).persistent = true →
      (su2.fields[j]).persistent = true →
      d.fieldVals[i] = some v →
      (su1.fields[i]).enc v = some b →
      (su2.fields[j]).dec b = some v →
      (loadNode su2 (saveNode su1 d)).fieldVals[j]? = some (some v)) := by
  constructor
  · intro i j hi hj hib hnd hname hp1 hp2
    unfold loadNode
    dsimp only
    rw [List.getElem?_map, List.getElem?_eq_getElem hj]
    unfold saveNode
    simp only [Option.map_some']
    rw [hname, hp2, find_zip_of_nodup PFlagDef.name su1.flags d.flagBits i hi hib hnd]
    dsimp only
    rw [hp1]
    simp
  · intro i j hi hj hib v b hnd hname hp1 hp2 hval henc hdec
    unfold loadNode
    dsimp only
    rw [List.getElem?_map, List.getElem?_eq_getElem hj]
    unfold saveNode
    simp only [Option.map_some']
    rw [hname, hp2, find_zip_of_nodup PFieldDef.name su1.fields d.fieldVals i hi hib hnd]
    simp [hp1, hval, henc, hdec]

/-- All-zero `nodeHistory` over the trivial accumulator, for witnesses. -/
def zeroHistU : NodeHistory Unit := ⟨(), 0, 0, 0, 0⟩

/-- A connected pool node view, for witnesses. -/
def connectedNode : SPNode Unit Unit :=
  ⟨false, false, false, true, false, false, 0, none, none, false⟩

/-- A persistent flag definition, for witnesses. -/
def pflag0 : PFlagDef := ⟨"flag-0", true⟩

/-- A persistent uint field definition with the identity codec, for witnesses. -/
def pfield0 : PFieldDef ℕ ℕ := ⟨"field-0", true, some, some⟩

/-- A second persistent field definition, for witnesses. -/
def pfield1 : PFieldDef ℕ ℕ := ⟨"field-1", true, some, some⟩

/-- A registration order of the two fields, for witnesses. -/
def psetup1 : PSetup ℕ ℕ := ⟨[pflag0], [pfield0, pfield1]⟩

/-- The reversed registration order of the same fields, for witnesses. -/
def psetup2 : PSetup ℕ ℕ := ⟨[pflag0], [pfield1, pfield0]⟩

/-- Node data stored under `psetup1`, for witnesses. -/
def pdata1 : PNodeData ℕ := ⟨[true], [some 100, some 7]⟩

/-- A `nodeHistory` record with negative `waitUntil` and fractional
`waitFactor`, for witnesses. -/
def wuHist : NodeHistory Unit := ⟨(), -5, 7, 3, 3 / 2⟩

theorem calculateNode_weight_formula_witness :
    0 ≤ (calculateNode unitEnv false true (some zeroHistU) (some ()) (some ()) () 1 0 0 0 0).hist.totalValue ∧
      ((calculateNode unitEnv false true (some zeroHistU) (some ()) (some ()) () 1 0 0 0 0).weight : ℤ) =
        ⌊(calculateNode unitEnv false true (some zeroHistU) (some ()) (some ()) () 1 0 0 0 0).hist.totalValue *
          (nodeWeightMulC : ℚ) /
          ((max (unitEnv.evValue ((calculateNode unitEnv false true (some zeroHistU) (some ()) (some ()) () 1 0 0 0 0).hist.dialCost) 0) dialCostC : ℕ) : ℚ)⌋ :=
  have h : 0 ≤ (calculateNode unitEnv false true (some zeroHistU) (some ()) (some ()) () 1 0 0 0 0).hist.totalValue := by
    norm_num [calculateNode, unitEnv, zeroHistU, zeroNodeHistory, recomputeTrigger]
  ⟨h, calculateNode_weight_formula unitEnv false true (some zeroHistU) () (some ()) () 1 0 0 0 0 h⟩

theorem calculateNode_waitFactor_ge_one_witness :
    (true = true ∨ false = true) ∧
      1 ≤ (calculateNode unitEnv true false (some zeroHistU) (some ()) none () 1 0 0 0 0).hist.waitFactor :=
  ⟨Or.inl rfl,
    calculateNode_waitFactor_ge_one unitEnv true false (some zeroHistU) () none () 1 0 0 0 0 (Or.inl rfl)⟩

theorem calculateNode_recompute_conditions_witness :
    (calculateNode unitEnv false true (some zeroHistU) (some ()) (some ()) () 1 0 0 0 0).hist.totalValue =
        unitEnv.rtValue () () 1 ∧
      (calculateNode unitEnv false true (some zeroHistU) (some ()) (some ()) () 1 0 0 0 0).hist.lastTimeout = 0 :=
  (calculateNode_recompute_conditions unitEnv false true (some zeroHistU) () (some ()) () 1 0 0 0 0).1
    (Or.inl rfl)

theorem calculateNode_failed_connection_backoff_witness :
    0 ≤ (calculateNode unitEnv true false (some zeroHistU) (some ()) none () 1 0 0 0 0).hist.totalValue ∧
      2 * minRedialWaitC ≤ (calculateNode unitEnv true false (some zeroHistU) (some ()) none () 1 0 0 0 0).wait :=
  have h : 0 ≤ (calculateNode unitEnv true false (some zeroHistU) (some ()) none () 1 0 0 0 0).hist.totalValue := by
    norm_num [calculateNode, unitEnv, zeroHistU, zeroNodeHistory, recomputeTrigger,
      timeoutChangeThresholdC]
  ⟨h, (calculateNode_failed_connection_backoff unitEnv (some zeroHistU) () none () 1 0 0 0 0 h).2.2⟩

theorem getTimeout_spec_witness :
    ((1 : ℤ) ≠ 0 ∧ (2 : ℤ) - 1 < timeoutRefreshC) ∧
      getTimeout intStatsEnv 0 1 2 ⟨700000000, (), 1⟩ = (700000000, ⟨700000000, (), 1⟩) :=
  ⟨⟨by decide, by decide⟩,
    (getTimeout_spec intStatsEnv 0 1 2 ⟨700000000, (), 1⟩).1 (by decide) (by decide)⟩

theorem unregisterPeer_spec_witness :
    connectedNode.connected = true ∧
      (unregisterPeer unitEnv () 1 0 0 0 0 none connectedNode).connStats = none :=
  ⟨rfl, (unregisterPeer_spec unitEnv () 1 0 0 0 0 none connectedNode rfl).1⟩

theorem selected_excludes_active_witness :
    SelReachable ⟨true, false, false, false⟩ ∧
      ((⟨true, false, false, false⟩ : SelFlags).dialed = false ∧
        (⟨true, false, false, false⟩ : SelFlags).connected = false ∧
        (⟨true, false, false, false⟩ : SelFlags).redialWait = false) :=
  have hr : SelReachable ⟨true, false, false, false⟩ :=
    Relation.ReflTransGen.single (SelStep.select initSelFlags ⟨rfl, rfl, rfl, rfl⟩)
  ⟨hr, selected_excludes_active ⟨true, false, false, false⟩ hr rfl⟩

theorem nodeHistory_codec_roundtrip_witness :
    (0 ≤ wuHist.waitFactor ∧ -(2 : ℤ) ^ 63 ≤ wuHist.waitUntil ∧ wuHist.waitUntil < 2 ^ 63) ∧
      decodeNodeHistory (encodeNodeHistory wuHist) =
        ⟨wuHist.dialCost, wuHist.waitUntil, 0, 0, ((⌊wuHist.waitFactor * 256⌋ : ℤ) : ℚ) / 256⟩ :=
  have h0 : 0 ≤ wuHist.waitFactor := by norm_num [wuHist]
  have h1 : -(2 : ℤ) ^ 63 ≤ wuHist.waitUntil := by norm_num [wuHist]
  have h2 : wuHist.waitUntil < 2 ^ 63 := by norm_num [wuHist]
  ⟨⟨h0, h1, h2⟩, nodeHistory_codec_roundtrip wuHist h0 h1 h2⟩

theorem nodestate_persistence_roundtrip_witness :
    ((psetup1.fields.map PFieldDef.name).Nodup ∧ pdata1.fieldVals[0]? = some (some 100)) ∧
      (loadNode psetup2 (saveNode psetup1 pdata1)).fieldVals[1]? = some (some 100) :=
  ⟨⟨by decide, rfl⟩,
    (nodestate_persistence_roundtrip psetup1 psetup2 pdata1).2 0 1 (by decide) (by decide)
      (by decide) 100 100 (by decide) rfl rfl rfl rfl rfl rfl⟩
